import Mathlib

/-!
Shallow embedding of the NNEF validator main program
(`src/parser/cpp/main.cpp`): the atomic-operation override table, the
print callback that renders graphs and operations, the provenance-chain
error reporting, and the post-parse binary shape cross-validation loop.
Strings are modelled as Lean `String`; the standard output of the program
is modelled as the list of emitted lines (each `std::endl` or trailing
"\n" of a printf format ends one line).
-/

set_option autoImplicit false

namespace NNEF

/-- Association-list lookup by key, mirroring `std::map::find`: the first
entry whose key matches. Tables built by this embedding never hold two
entries with the same key, so iteration order is immaterial. -/
def lookupName {α : Type} (k : String) : List (String × α) → Option α
  | [] => none
  | (k2, v) :: rest => if k2 = k then some v else lookupName k rest

/-- A parameter of a `nnef::Prototype`: a declared name and whether its
type is a tensor type (`param.type()->isTensor()` in the source). -/
structure Param where
  name : String
  isTensor : Bool

/-- A result of a `nnef::Prototype`: a declared name. Results in this
program are always tensor typed. -/
structure ProtoResult where
  name : String

/-- `nnef::Prototype`: an operation or graph signature with a name, an
ordered parameter list and an ordered result list. -/
structure Prototype where
  name : String
  params : List Param
  results : List ProtoResult

/-- Modelled from the spec: `nnef::Value` (value.h is not under src/), a
tagged variant with at least identifier references and scalar, string and
logical literals. The array and tuple variants of the spec are omitted:
no claim exercises them. -/
inductive Value where
  | ident (name : String)
  | integer (n : Int)
  | str (s : String)
  | logical (b : Bool)
deriving DecidableEq

/-- Modelled from the spec: printing a `nnef::Value` (the stream operator
of value.h is not under src/). An identifier prints as its name, literals
print their literal text. -/
def showValue : Value → String
  | .ident n => n
  | .integer n => toString n
  | .str s => "\"" ++ s ++ "\""
  | .logical b => if b then "true" else "false"

/-- One token of the `--atomics` option list, classified as in the loop
body of `parseAtomics` (main.cpp lines 129-139): `token[0]` is a plus or
minus sign, and the rest of the token (`token.substr(1)`) is the operation
name; any other first character (including the null character that
`token[0]` yields on an empty token) is malformed. -/
def tokenEntry (t : String) : Option (String × Bool) :=
  match t.data with
  | [] => none
  | c :: rest =>
    if c = '+' then some (String.mk rest, true)
    else if c = '-' then some (String.mk rest, false)
    else none

/-- Insertion into the override table, mirroring `std::map::emplace`
(main.cpp line 134): the pair is inserted only when no entry with that
key exists; an existing entry is never overwritten. -/
def insertNew (m : List (String × Bool)) (k : String) (v : Bool) : List (String × Bool) :=
  if (lookupName k m).isSome then m else m ++ [(k, v)]

/-- The diagnostic printed for a malformed `--atomics` token
(main.cpp line 138). -/
def atomicsDiag : String :=
  "atomic op must be marked with \x27+\x27 or \x27-\x27 for addition to or removal from the list of standard ops"

/-- The token loop of `parseAtomics` (main.cpp lines 127-140): builds the
override table left to right and emits one diagnostic line per malformed
token. Returns the table and the diagnostic lines in emission order. -/
def paRun (acc : List (String × Bool)) : List String → List (String × Bool) × List String
  | [] => (acc, [])
  | t :: ts =>
    match tokenEntry t with
    | some (k, v) => paRun (insertNew acc k v) ts
    | none =>
      let r := paRun acc ts
      (r.1, atomicsDiag :: r.2)

/-- Tokenization of the `--atomics` argument (main.cpp lines 125-126):
`std::cregex_token_iterator` with pattern `\s+` and submatch -1 yields
the subsequences between whitespace runs: the maximal whitespace-free
runs, plus one empty leading token when the string starts with
whitespace; the empty suffix after a trailing whitespace run is not
yielded. -/
def wsTokens (cur : List Char) : List Char → List String
  | [] => if cur = [] then [] else [String.mk cur.reverse]
  | c :: cs =>
    if c.isWhitespace then
      if cur = [] then wsTokens [] cs else String.mk cur.reverse :: wsTokens [] cs
    else
      wsTokens (c :: cur) cs

/-- See `wsTokens`: the full token list of a `--atomics` argument,
including the empty leading token produced by the token iterator when the
string begins with whitespace. -/
def tokenize (s : String) : List String :=
  match s.data with
  | [] => []
  | c :: _ => if c.isWhitespace then "" :: wsTokens [] s.data else wsTokens [] s.data

/-- `parseAtomics` (main.cpp lines 121-142): parse an `--atomics`
argument into the override table, returning also the diagnostic lines
emitted for malformed tokens. -/
def parseAtomics (s : String) : List (String × Bool) × List String :=
  paRun [] (tokenize s)

/-- Modelled from the spec: the built-in default list of atomic operation
names used by `nnef::Parser::Callback::isAtomic` (not under src/). The
spec fixes only that the built-in default classifies `conv` as atomic;
further members are immaterial to the claims. -/
def stdAtomicOps : List String := ["conv"]

/-- Modelled from the spec: the built-in default classification
`nnef::Parser::Callback::isAtomic`, true exactly for a fixed list of
primitive operation names, ignoring the bound arguments. -/
def defaultIsAtomic (proto : Prototype) (_args : List (String × Value)) : Bool :=
  stdAtomicOps.contains proto.name

/-- `PrintCallback::isAtomic` (main.cpp lines 109-117): look the
operation name up in the override table; a hit returns the stored
boolean, a miss falls back to the default classification. The default is
passed as a parameter so that precedence holds for every default. -/
def isAtomic (atomics : List (String × Bool)) (dflt : Prototype → List (String × Value) → Bool)
    (proto : Prototype) (args : List (String × Value)) : Bool :=
  match lookupName proto.name atomics with
  | some b => b
  | none => dflt proto args

/-- The comma-separation loops of `PrintCallback` (main.cpp lines 41-50,
54-63, 78-87, 91-104): before every item except the first, emit ", ". -/
def sepAux (first : Bool) : List String → String
  | [] => ""
  | x :: xs => (if first then x else ", " ++ x) ++ sepAux false xs

/-- See `sepAux`: the rendering of a full item list. -/
def sepList (items : List String) : String :=
  sepAux true items

/-- The spec wording for the separation rule: comma-space separated, no
trailing separator. Stated separately to compare with the source loop. -/
def specJoin : List String → String
  | [] => ""
  | [x] => x
  | x :: y :: xs => x ++ ", " ++ specJoin (y :: xs)

/-- `PrintCallback::beginGraph` (main.cpp lines 37-66): the graph-open
output, with `std::endl` rendered as a newline. The opening brace is
emitted after an `endl`, so it stands on its own line. -/
def beginGraphOutput (proto : Prototype) : String :=
  "graph " ++ proto.name ++ "( " ++ sepList (proto.params.map Param.name)
    ++ " ) -> ( " ++ sepList (proto.results.map ProtoResult.name) ++ " )\n\x7b\n"

/-- `PrintCallback::endGraph` (main.cpp lines 68-71). -/
def endGraphOutput : String := "\x7d\n"

/-- `PrintCallback::operation` (main.cpp lines 73-107): one result slot.
`args[result.name()]` looks the declared result name up in the argument
bindings and prints the bound value; the spec treats a missing key as
`KeyNotFound`, modelled by `Option`. -/
def resultSlot (args : List (String × Value)) (r : ProtoResult) : Option String :=
  (lookupName r.name args).map showValue

/-- `PrintCallback::operation` (main.cpp lines 91-104): one argument
slot. A parameter whose type is not a tensor type prints
`name = value`; a tensor-typed parameter prints the bound value bare. -/
def argSlot (args : List (String × Value)) (p : Param) : Option String :=
  (lookupName p.name args).map fun v =>
    if p.isTensor then showValue v else p.name ++ " = " ++ showValue v

/-- Collect the rendered slots of a list of declarations, failing as
soon as one lookup fails (`KeyNotFound` in the spec). -/
def collectSlots {α : Type} (f : α → Option String) : List α → Option (List String)
  | [] => some []
  | x :: xs =>
    match f x with
    | none => none
    | some s => (collectSlots f xs).map (s :: ·)

/-- `PrintCallback::operation` (main.cpp lines 73-107): the full output
of one operation event, `none` when a declared name is missing from the
bindings (`KeyNotFound`). -/
def operationOutput (proto : Prototype) (args : List (String × Value)) : Option String :=
  match collectSlots (resultSlot args) proto.results, collectSlots (argSlot args) proto.params with
  | some rs, some ps =>
    some ("\t" ++ sepList rs ++ " = " ++ proto.name ++ "(" ++ sepList ps ++ ")\n")
  | _, _ => none

/-- `nnef::Error::Position` (reported through main.cpp lines 208-215): a
line and column plus an optional origin reference to the enclosing
expansion site; `last` is a position whose origin pointer is null. The
inductive structure makes every origin chain finite and acyclic by
construction. -/
inductive Position where
  | last (line : Nat) (column : Nat)
  | within (line : Nat) (column : Nat) (origin : Position)

/-- The line field of a position. -/
def Position.line : Position → Nat
  | .last l _ => l
  | .within l _ _ => l

/-- The column field of a position. -/
def Position.column : Position → Nat
  | .last _ c => c
  | .within _ c _ => c

/-- The origin reference of a position, `none` for a null origin
pointer. -/
def Position.origin : Position → Option Position
  | .last _ _ => none
  | .within _ _ o => some o

/-- `nnef::Error` as caught in main (main.cpp lines 206-208): a message
and a position carrying the provenance chain. -/
structure ParseErr where
  message : String
  position : Position

/-- The provenance walk of main.cpp lines 210-215, started from the
position of the error: one "... evaluated from" line per origin link,
innermost expansion site first, stopping at the position whose origin
reference is absent. -/
def originLines : Position → List String
  | .last _ _ => []
  | .within _ _ o =>
    ("... evaluated from [" ++ toString o.line ++ ":" ++ toString o.column ++ "]")
      :: originLines o

/-- The error report of main.cpp lines 208-215: the message with the
innermost position once, then the provenance walk. -/
def renderErrorLines (e : ParseErr) : List String :=
  ("Parse error: [" ++ toString e.position.line ++ ":" ++ toString e.position.column
    ++ "] " ++ e.message) :: originLines e.position

/-- The spec wording of a provenance chain: the ordered list of
(line, column) pairs of the origin links of a position, innermost
expansion site first. Stated separately to compare with the source
walk. -/
def chainPositions : Position → List (Nat × Nat)
  | .last _ _ => []
  | .within _ _ o => (o.line, o.column) :: chainPositions o

/-- Modelled from the spec: `nnef::Shape` (not under src/), an ordered
sequence of non-negative tensor dimensions. -/
abbrev Shape : Type := List Nat

/-- Modelled from the spec: `nnef::Shape::operator==` (not under src/),
the equality the mismatch test of main.cpp line 237 negates. -/
def shapeEq (a b : Shape) : Bool :=
  (a : List Nat) == (b : List Nat)

/-- Modelled from the spec: printing a `nnef::Shape` in the mismatch
diagnostic of main.cpp lines 239-240 (the stream operator is not under
src/); the exact rendering is immaterial to the claims. -/
def showShape (s : Shape) : String :=
  "[" ++ sepList ((s : List Nat).map toString) ++ "]"

/-- `find_last_of` over the character list of a path: the index of the
last slash, `none` when there is none (`std::string::npos`). -/
def findLastSlash : List Char → Option Nat
  | [] => none
  | c :: cs =>
    match findLastSlash cs with
    | some i => some (i + 1)
    | none => if c = '/' then some 0 else none

/-- The expression `filename.substr(0, filename.find_last_of(slash) + 1)` of main.cpp
line 222: the prefix up to and including the last slash; when there is
no slash, `npos + 1 == 0` makes the prefix empty. -/
def dirPrefix (filename : String) : String :=
  match findLastSlash filename.data with
  | some i => String.mk (filename.data.take (i + 1))
  | none => ""

/-- The binary file location of main.cpp line 222: the directory prefix
of the graph description path joined with `<name>.dat`. -/
def binaryFilename (filename : String) (name : String) : String :=
  dirPrefix filename ++ name ++ ".dat"

/-- The state of one potential binary tensor file, as the validation
loop observes it: the file opens and yields a header, or opens but the
header read fails; a path absent from the list does not open. -/
inductive BinFile where
  | corrupt
  | withHeader (shape : Shape)

/-- One iteration of the shape cross-validation loop (main.cpp lines
220-242) for the record of one variable tensor: derive the file
location, try to open, try to read the header, compare shapes; each
failure produces one diagnostic line and the iteration ends. -/
def validateOne (filename : String) (fs : List (String × BinFile))
    (rec : String × Shape) : List String :=
  let path := binaryFilename filename rec.1
  match lookupName path fs with
  | none => ["Could not open file: " ++ path]
  | some .corrupt => ["Failed to read binary header from file: " ++ path]
  | some (.withHeader s) =>
    if shapeEq s rec.2 then []
    else ["Shape " ++ showShape s ++ " in tensor file \x27" ++ path
      ++ "\x27 does not match shape " ++ showShape rec.2 ++ " defined in network structure"]

/-- The shape cross-validation loop of main.cpp lines 218-243 over the
recorded variable shapes (`callback.variableShapes()`), in recording
order: the diagnostic lines of every iteration, concatenated. -/
def validate (filename : String) (fs : List (String × BinFile))
    (recs : List (String × Shape)) : List String :=
  recs.flatMap (validateOne filename fs)

/-- The parse-phase report of main.cpp lines 201-216: one success line,
or the error report with the provenance chain. -/
def parsePhaseLines : Option ParseErr → List String
  | none => ["Parse succeeded"]
  | some e => renderErrorLines e

/-- The tail of `main` (main.cpp lines 201-245) after the input file
opened: the parse phase report, then — gated only on the `binary` flag,
the `catch` block does not return — the shape cross-validation loop, and
the final `return 0`. The parse outcome and the shapes the callback
recorded before the outcome are inputs, since the parser is external. -/
def mainTail (binary : Bool) (outcome : Option ParseErr) (filename : String)
    (recs : List (String × Shape)) (fs : List (String × BinFile)) : List String × Int :=
  (parsePhaseLines outcome ++ (if binary then validate filename fs recs else []), 0)

/-- Strict alternative on options, used to state lookup laws without the
lazy thunk of `Option.orElse`. -/
def orO {α : Type} : Option α → Option α → Option α
  | some a, _ => some a
  | none, b => b

/-- The spec-side reading of the override list: the boolean carried by
the first well-formed token of the list whose operation name is the one
sought, if any. -/
def firstMark : List String → String → Option Bool
  | [], _ => none
  | t :: ts, n =>
    match tokenEntry t with
    | some (k, v) => if k = n then some v else firstMark ts n
    | none => firstMark ts n

/-- The option flags and override table accumulated by the argument loop
of main.cpp lines 170-196. -/
structure Options where
  flat : Bool
  layers : Bool
  binary : Bool
  atomics : List (String × Bool)
deriving DecidableEq

/-- The initial option state of main.cpp lines 170-173. -/
def initOptions : Options :=
  { flat := false, layers := false, binary := false, atomics := [] }

/-- The argument loop of main.cpp lines 174-196 in a total embedding.
`argv` is the argument vector without the terminating null pointer; the
C guarantee `argv[argc] == NULL` makes `List.get?` at an out-of-range
index the null pointer. On `--atomics` the loop reads `argv[++i]`
(line 190); when that entry is the null terminator, `parseAtomics`
applies `strlen` to a null pointer (line 126), modelled as the error
branch. An unrecognized option only prints a diagnostic, which this
model drops. -/
def optionLoop (argv : List String) (i : Nat) (acc : Options) : Except String Options :=
  if h : i < argv.length then
    let a := argv.get ⟨i, h⟩
    if a = "--flat" then optionLoop argv (i + 1) { acc with flat := true }
    else if a = "--layers" then optionLoop argv (i + 1) { acc with layers := true }
    else if a = "--binary" then optionLoop argv (i + 1) { acc with binary := true }
    else if a = "--atomics" then
      match argv.get? (i + 1) with
      | some v => optionLoop argv (i + 2) { acc with atomics := (parseAtomics v).1 }
      | none => Except.error "null pointer dereference: strlen(argv[argc]) in parseAtomics"
    else optionLoop argv (i + 1) acc
  else
    Except.ok acc
termination_by argv.length - i

/-- The whole option scan of main: indices 2 to argc-1 of the argument
vector, starting from the defaults. -/
def parseOptions (argv : List String) : Except String Options :=
  optionLoop argv 2 initOptions

/-! ## Helper lemmas -/

theorem sepAux_false_eq_specJoin (l : List String) :
    ∀ y : String, y ++ sepAux false l = specJoin (y :: l) := by
  induction l with
  | nil => intro y; simp [sepAux, specJoin, String.append_empty]
  | cons z zs ih =>
    intro y
    simp only [sepAux, if_neg Bool.false_ne_true, specJoin]
    rw [← ih z]
    simp [String.append_assoc]

theorem sepList_eq_specJoin (l : List String) : sepList l = specJoin l := by
  cases l with
  | nil => rfl
  | cons x xs =>
    simp only [sepList, sepAux, if_pos rfl]
    exact sepAux_false_eq_specJoin xs x

theorem lookupName_append {α : Type} (k : String) (l1 l2 : List (String × α)) :
    lookupName k (l1 ++ l2) = orO (lookupName k l1) (lookupName k l2) := by
  induction l1 with
  | nil => simp [lookupName, orO]
  | cons p l1 ih =>
    simp only [List.cons_append, lookupName]
    by_cases h : p.1 = k
    · simp [h, orO]
    · simp [h, ih]

theorem lookupName_insertNew (n k : String) (v : Bool) (acc : List (String × Bool)) :
    lookupName n (insertNew acc k v) =
      orO (lookupName n acc) (if k = n then some v else none) := by
  unfold insertNew
  cases hk : lookupName k acc with
  | some b =>
    simp only [hk, Option.isSome_some, if_pos]
    by_cases h : k = n
    · subst h
      rw [hk]
      rfl
    · rw [if_neg h]
      cases lookupName n acc <;> rfl
  | none =>
    simp only [hk, Option.isSome_none, if_neg Bool.false_ne_true]
    rw [lookupName_append]
    have h1 : lookupName n [(k, v)] = if k = n then some v else none := by
      simp [lookupName]
    rw [h1]

theorem paRun_lookup (n : String) (ts : List String) (acc : List (String × Bool)) :
    lookupName n (paRun acc ts).1 = orO (lookupName n acc) (firstMark ts n) := by
  induction ts generalizing acc with
  | nil =>
    simp [paRun, firstMark]
    cases lookupName n acc <;> simp [orO]
  | cons t ts ih =>
    simp only [paRun, firstMark]
    cases ht : tokenEntry t with
    | none =>
      simp only [ht]
      exact ih acc
    | some kv =>
      obtain ⟨k, v⟩ := kv
      simp only [ht, ih, lookupName_insertNew]
      cases hn : lookupName n acc with
      | some b => simp [orO]
      | none =>
        simp only [orO]
        by_cases h : k = n <;> simp [h, orO]

theorem paRun_malformed (t : String) (ht : tokenEntry t = none) (ts1 ts2 : List String)
    (acc : List (String × Bool)) :
    (paRun acc (ts1 ++ t :: ts2)).1 = (paRun acc (ts1 ++ ts2)).1 ∧
    (paRun acc (ts1 ++ t :: ts2)).2.length = (paRun acc (ts1 ++ ts2)).2.length + 1 := by
  induction ts1 generalizing acc with
  | nil =>
    simp [paRun, ht]
  | cons u ts1 ih =>
    simp only [List.cons_append, paRun]
    cases hu : tokenEntry u with
    | none =>
      obtain ⟨h1, h2⟩ := ih acc
      simp [h1, h2]
    | some kv =>
      obtain ⟨k, v⟩ := kv
      exact ih (insertNew acc k v)

theorem collectSlots_of_isSome {α : Type} (f : α → Option String) (l : List α)
    (h : ∀ x ∈ l, (f x).isSome) :
    collectSlots f l = some (l.map fun x => (f x).getD "") := by
  induction l with
  | nil => rfl
  | cons x xs ih =>
    have hx : (f x).isSome := h x (List.mem_cons_self x xs)
    rcases Option.isSome_iff_exists.mp hx with ⟨s, hs⟩
    simp only [collectSlots, hs]
    rw [ih fun y hy => h y (List.mem_cons_of_mem x hy)]
    simp [hs]

theorem originLines_eq_chain : ∀ (p : Position),
    originLines p = (chainPositions p).map
      (fun pc => "... evaluated from [" ++ toString pc.1 ++ ":" ++ toString pc.2 ++ "]")
  | .last _ _ => rfl
  | .within _ _ o => by
    simp only [originLines, chainPositions, List.map_cons, originLines_eq_chain o]

theorem findLastSlash_of_not_mem (l : List Char) (h : '/' ∉ l) :
    findLastSlash l = none := by
  induction l with
  | nil => rfl
  | cons c cs ih =>
    simp only [List.mem_cons, not_or] at h
    simp only [findLastSlash, ih h.2]
    exact if_neg fun hc => h.1 hc.symm

theorem findLastSlash_append (l1 l2 : List Char) (h : '/' ∉ l2) :
    findLastSlash (l1 ++ '/' :: l2) = some l1.length := by
  induction l1 with
  | nil =>
    simp [findLastSlash, findLastSlash_of_not_mem l2 h]
  | cons c cs ih =>
    simp [findLastSlash, ih]

theorem optionLoop_ok (argv : List String)
    (hgood : ∀ j : Fin argv.length, argv.get j = "--atomics" → j.1 + 1 < argv.length)
    (i : Nat) (acc : Options) : ∃ o, optionLoop argv i acc = Except.ok o := by
  rw [optionLoop]
  by_cases h : i < argv.length
  · rw [dif_pos h]
    by_cases h1 : argv.get ⟨i, h⟩ = "--flat"
    · rw [if_pos h1]
      exact optionLoop_ok argv hgood (i + 1) _
    rw [if_neg h1]
    by_cases h2 : argv.get ⟨i, h⟩ = "--layers"
    · rw [if_pos h2]
      exact optionLoop_ok argv hgood (i + 1) _
    rw [if_neg h2]
    by_cases h3 : argv.get ⟨i, h⟩ = "--binary"
    · rw [if_pos h3]
      exact optionLoop_ok argv hgood (i + 1) _
    rw [if_neg h3]
    by_cases h4 : argv.get ⟨i, h⟩ = "--atomics"
    · rw [if_pos h4]
      have hlt : i + 1 < argv.length := hgood ⟨i, h⟩ h4
      rw [List.get?_eq_get hlt]
      exact optionLoop_ok argv hgood (i + 2) _
    · rw [if_neg h4]
      exact optionLoop_ok argv hgood (i + 1) _
  · rw [dif_neg h]
    exact ⟨acc, rfl⟩
termination_by argv.length - i
decreasing_by all_goals omega

/-! ## Claims -/

/-- C1: for every operation name with an entry in the override table,
`isAtomic` returns that entry regardless of the default classification;
for every name without an entry it returns the built-in default; in
particular the override list "-conv" makes `isAtomic` on a signature
named conv return false although the built-in default for conv is
atomic. -/
theorem C1_atomic_override_precedence :
    (∀ (table : List (String × Bool)) (dflt : Prototype → List (String × Value) → Bool)
        (proto : Prototype) (args : List (String × Value)) (b : Bool),
        lookupName proto.name table = some b → isAtomic table dflt proto args = b) ∧
    (∀ (table : List (String × Bool)) (dflt : Prototype → List (String × Value) → Bool)
        (proto : Prototype) (args : List (String × Value)),
        lookupName proto.name table = none → isAtomic table dflt proto args = dflt proto args) ∧
    defaultIsAtomic ⟨"conv", [], []⟩ [] = true ∧
    isAtomic (parseAtomics "-conv").1 defaultIsAtomic ⟨"conv", [], []⟩ [] = false := by
  refine ⟨fun table dflt proto args b h => ?_, fun table dflt proto args h => ?_, by decide, by decide⟩
  · simp [isAtomic, h]
  · simp [isAtomic, h]

/-- Witness for C1 at a concrete override table and signature. -/
theorem C1_witness :
    lookupName (Prototype.mk "conv" [] []).name [("conv", false)] = some false ∧
    isAtomic [("conv", false)] defaultIsAtomic ⟨"conv", [], []⟩ [] = false :=
  ⟨by decide,
    C1_atomic_override_precedence.1 [("conv", false)] defaultIsAtomic ⟨"conv", [], []⟩ [] false
      (by decide)⟩

/-- C2: the override list "+a bad -b" yields exactly the table
mapping a to true and b to false with exactly one diagnostic for the
malformed token, and a malformed token anywhere in the token list leaves
the resulting table unchanged and adds exactly one diagnostic. -/
theorem C2_malformed_token_tolerance :
    parseAtomics "+a bad -b" = ([("a", true), ("b", false)], [atomicsDiag]) ∧
    (∀ (t : String) (ts1 ts2 : List String), tokenEntry t = none →
      (paRun [] (ts1 ++ t :: ts2)).1 = (paRun [] (ts1 ++ ts2)).1 ∧
      (paRun [] (ts1 ++ t :: ts2)).2.length = (paRun [] (ts1 ++ ts2)).2.length + 1) :=
  ⟨by decide, fun t ts1 ts2 ht => paRun_malformed t ht ts1 ts2 []⟩

/-- Witness for C2 at the malformed token "bad" between "+a" and "-b". -/
theorem C2_witness :
    tokenEntry "bad" = none ∧
    (paRun [] (["+a"] ++ "bad" :: ["-b"])).1 = (paRun [] (["+a"] ++ ["-b"])).1 ∧
    (paRun [] (["+a"] ++ "bad" :: ["-b"])).2.length = (paRun [] (["+a"] ++ ["-b"])).2.length + 1 :=
  ⟨by decide, C2_malformed_token_tolerance.2 "bad" ["+a"] ["-b"] (by decide)⟩

/-- C9: when the same operation name occurs in several well-formed
tokens of the override list, the table keeps the boolean of the first
such token (`std::map::emplace` never overwrites), so the lookup of any
name in the parsed table is the mark of the first well-formed token
carrying that name; in particular "+a -a" maps a to true. -/
theorem C9_duplicate_token_first_wins :
    (∀ (ts : List String) (n : String), lookupName n (paRun [] ts).1 = firstMark ts n) ∧
    lookupName "a" (parseAtomics "+a -a").1 = some true := by
  constructor
  · intro ts n
    rw [paRun_lookup]
    simp [lookupName, orO]
  · decide

/-- C3 counterexample: the graph-open output for signature f with
tensor parameters x, y and result z is not the single line
"graph f( x, y ) -> ( z ) \x7b": the source emits the opening brace
after an endl, on its own line. -/
theorem C3_brace_on_own_line :
    beginGraphOutput ⟨"f", [⟨"x", true⟩, ⟨"y", true⟩], [⟨"z"⟩]⟩
        ≠ "graph f( x, y ) -> ( z ) \x7b" ∧
    beginGraphOutput ⟨"f", [⟨"x", true⟩, ⟨"y", true⟩], [⟨"z"⟩]⟩
        ≠ "graph f( x, y ) -> ( z ) \x7b\n" ∧
    beginGraphOutput ⟨"f", [⟨"x", true⟩, ⟨"y", true⟩], [⟨"z"⟩]⟩
        = "graph f( x, y ) -> ( z )\n\x7b\n" := by
  refine ⟨by decide, by decide, by decide⟩

/-- C3 as amended: the graph-open fragment is
"graph <name>( <p0>, <p1>, ... ) -> ( <r0>, <r1>, ... )" followed by a
newline and the opening brace on its own line — names only, comma-space
separated, no trailing separator, parentheses present even when the
sequences are empty; for f, [x, y], [z] the fragment is exactly
"graph f( x, y ) -> ( z )\n\x7b\n". -/
theorem C3_graph_open_fragment :
    (∀ proto : Prototype,
      beginGraphOutput proto = "graph " ++ proto.name ++ "( "
        ++ specJoin (proto.params.map Param.name) ++ " ) -> ( "
        ++ specJoin (proto.results.map ProtoResult.name) ++ " )\n\x7b\n") ∧
    beginGraphOutput ⟨"f", [⟨"x", true⟩, ⟨"y", true⟩], [⟨"z"⟩]⟩
      = "graph f( x, y ) -> ( z )\n\x7b\n" ∧
    beginGraphOutput ⟨"g", [], []⟩ = "graph g(  ) -> (  )\n\x7b\n" := by
  refine ⟨fun proto => ?_, by decide, by decide⟩
  simp [beginGraphOutput, sepList_eq_specJoin]

/-- C4: an operation event renders as a tab, the comma-space separated
result slots, " = ", the operation name, and the argument slots in
parentheses with no space after the opening parenthesis; each result
slot is the bound value looked up in the bindings by the declared result
name, each argument slot is "declaredName = value" for an
attribute-typed parameter and the bare bound value for a tensor-typed
one; add(a, b) -> (c) bound to t1, t2, t3 renders "\tt3 = add(t1, t2)",
and an attribute parameter axis bound to 1 renders "axis = 1". -/
theorem C4_operation_line_format :
    (∀ (proto : Prototype) (args : List (String × Value)),
      (∀ r ∈ proto.results, (resultSlot args r).isSome) →
      (∀ p ∈ proto.params, (argSlot args p).isSome) →
      operationOutput proto args = some ("\t"
        ++ specJoin (proto.results.map fun r => (resultSlot args r).getD "")
        ++ " = " ++ proto.name ++ "("
        ++ specJoin (proto.params.map fun p => (argSlot args p).getD "") ++ ")\n")) ∧
    operationOutput ⟨"add", [⟨"a", true⟩, ⟨"b", true⟩], [⟨"c"⟩]⟩
        [("a", .ident "t1"), ("b", .ident "t2"), ("c", .ident "t3")]
      = some "\tt3 = add(t1, t2)\n" ∧
    operationOutput ⟨"op", [⟨"x", true⟩, ⟨"axis", false⟩], [⟨"y"⟩]⟩
        [("x", .ident "t1"), ("axis", .integer 1), ("y", .ident "t2")]
      = some "\tt2 = op(t1, axis = 1)\n" := by
  refine ⟨fun proto args hr hp => ?_, by decide, by decide⟩
  rw [operationOutput, collectSlots_of_isSome _ _ hr, collectSlots_of_isSome _ _ hp]
  simp [sepList_eq_specJoin]

/-- Witness for C4 at the add example. -/
theorem C4_witness :
    operationOutput ⟨"add", [⟨"a", true⟩, ⟨"b", true⟩], [⟨"c"⟩]⟩
        [("a", .ident "t1"), ("b", .ident "t2"), ("c", .ident "t3")]
      = some ("\t"
        ++ specJoin ((Prototype.mk "add" [⟨"a", true⟩, ⟨"b", true⟩] [⟨"c"⟩]).results.map
          fun r => (resultSlot [("a", Value.ident "t1"), ("b", Value.ident "t2"), ("c", Value.ident "t3")] r).getD "")
        ++ " = " ++ "add" ++ "("
        ++ specJoin ((Prototype.mk "add" [⟨"a", true⟩, ⟨"b", true⟩] [⟨"c"⟩]).params.map
          fun p => (argSlot [("a", Value.ident "t1"), ("b", Value.ident "t2"), ("c", Value.ident "t3")] p).getD "")
        ++ ")\n") :=
  C4_operation_line_format.1 ⟨"add", [⟨"a", true⟩, ⟨"b", true⟩], [⟨"c"⟩]⟩
    [("a", .ident "t1"), ("b", .ident "t2"), ("c", .ident "t3")]
    (by decide) (by decide)

/-- C5: the error report prints the message with the innermost position
exactly once, then exactly one "evaluated from" line per link of the
origin chain, walking outward, terminating exactly when the origin
reference is absent; the chain (3,5) -> (10,2) -> (1,1) yields the two
lines for (10,2) then (1,1), in that order. -/
theorem C5_provenance_chain_rendering :
    (∀ e : ParseErr,
      renderErrorLines e = ("Parse error: [" ++ toString e.position.line ++ ":"
          ++ toString e.position.column ++ "] " ++ e.message)
        :: (chainPositions e.position).map
            (fun pc => "... evaluated from [" ++ toString pc.1 ++ ":" ++ toString pc.2 ++ "]")) ∧
    (∀ p : Position, (originLines p).length = (chainPositions p).length) ∧
    renderErrorLines ⟨"msg", .within 3 5 (.within 10 2 (.last 1 1))⟩
      = ["Parse error: [3:5] msg", "... evaluated from [10:2]", "... evaluated from [1:1]"] := by
  refine ⟨fun e => ?_, fun p => ?_, by decide⟩
  · rw [renderErrorLines, originLines_eq_chain]
  · rw [originLines_eq_chain, List.length_map]

/-- C6 counterexample: with binary validation requested and the parse
ending in a ParseError, the run still executes the shape
cross-validation loop — the catch block of main.cpp lines 206-216 falls
through to the `if (binary)` block of line 218 — so the output is not
only the parse-phase report: the file-open diagnostic of the validator
appears after the error report. -/
theorem C6_validator_runs_after_error :
    mainTail true (some ⟨"boom", .last 1 1⟩) "net.nnef" [("w", [2])] []
        ≠ (parsePhaseLines (some ⟨"boom", .last 1 1⟩), 0) ∧
    (mainTail true (some ⟨"boom", .last 1 1⟩) "net.nnef" [("w", [2])] []).1
        = ["Parse error: [1:1] boom", "Could not open file: w.dat"] := by
  refine ⟨by decide, by decide⟩

/-- C6 as amended: the shape cross-validation phase is gated only on the
binary-validation request, not on the parse outcome: when binary
validation is requested its output follows the parse report even when
parsing ended in a ParseError, and when it is not requested the run
ends with the parse report. -/
theorem C6_validator_gated_on_binary_only :
    (∀ (e : ParseErr) (fn : String) (recs : List (String × Shape))
        (fs : List (String × BinFile)),
      (mainTail true (some e) fn recs fs).1 = renderErrorLines e ++ validate fn fs recs ∧
      List.IsSuffix (validate fn fs recs) (mainTail true (some e) fn recs fs).1 ∧
      (mainTail false (some e) fn recs fs).1 = renderErrorLines e) ∧
    (∀ (fn : String) (recs : List (String × Shape)) (fs : List (String × BinFile)),
      (mainTail true none fn recs fs).1 = ["Parse succeeded"] ++ validate fn fs recs) := by
  refine ⟨fun e fn recs fs => ⟨rfl, ⟨renderErrorLines e, rfl⟩, ?_⟩, fun fn recs fs => rfl⟩
  simp [mainTail, parsePhaseLines]

/-- C7: the shape cross-validation loop has partial-failure semantics:
the diagnostics of the whole loop are the concatenation of the
diagnostics of the independent iteration of each record, so a failure on
record never prevents evaluating the remaining records, and the run
still returns exit code 0; with three recorded tensors where the file
of tensor 2 is missing and tensors 1 and 3 match, exactly the one
file-open diagnostic for tensor 2 is produced. -/
theorem C7_partial_failure_validation :
    (∀ (fn : String) (fs : List (String × BinFile)) (l1 : List (String × Shape))
        (r : String × Shape) (l2 : List (String × Shape)),
      validate fn fs (l1 ++ r :: l2) = validate fn fs l1 ++ validateOne fn fs r ++ validate fn fs l2) ∧
    validate "dir/g.nnef" [("dir/t1.dat", .withHeader [2]), ("dir/t3.dat", .withHeader [4])]
        [("t1", [2]), ("t2", [3]), ("t3", [4])]
      = ["Could not open file: dir/t2.dat"] ∧
    (∀ (binary : Bool) (outcome : Option ParseErr) (fn : String)
        (recs : List (String × Shape)) (fs : List (String × BinFile)),
      (mainTail binary outcome fn recs fs).2 = 0) := by
  refine ⟨fun fn fs l1 r l2 => ?_, by decide, fun binary outcome fn recs fs => rfl⟩
  simp [validate, List.flatMap_append, List.flatMap_cons]

/-- C8: the binary file location of a recorded variable is the prefix
of the graph description path up to and including its last slash,
joined with the variable name and the ".dat" extension; and the stored
shape is compared to the declared shape by the Shape equality rule:
equal exactly when same length and identical dimensions in order. -/
theorem C8_binary_path_and_shape_equality :
    (∀ (p base nm : String), '/' ∉ base.data →
      binaryFilename (p ++ "/" ++ base) nm = p ++ "/" ++ nm ++ ".dat") ∧
    (∀ (fn : String), '/' ∉ fn.data → ∀ nm : String, binaryFilename fn nm = nm ++ ".dat") ∧
    (∀ a b : Shape, shapeEq a b = true ↔
      (a.length = b.length ∧
        ∀ (i : Nat) (h1 : i < a.length) (h2 : i < b.length), a.get ⟨i, h1⟩ = b.get ⟨i, h2⟩)) := by
  refine ⟨fun p base nm hb => ?_, fun fn hf nm => ?_, fun a b => ?_⟩
  · have hdata : (p ++ "/" ++ base).data = p.data ++ '/' :: base.data := by
      simp [String.data_append]
    have hfind : findLastSlash (p ++ "/" ++ base).data = some p.data.length := by
      rw [hdata]
      exact findLastSlash_append p.data base.data hb
    have htake : (p ++ "/" ++ base).data.take (p.data.length + 1) = (p ++ "/").data := by
      rw [hdata, List.take_append 1, String.data_append]
      rfl
    have hpre : dirPrefix (p ++ "/" ++ base) = p ++ "/" := by
      rw [dirPrefix, hfind]
      show String.mk ((p ++ "/" ++ base).data.take (p.data.length + 1)) = p ++ "/"
      rw [htake]
    rw [binaryFilename, hpre, String.append_assoc, String.append_assoc]
  · rw [binaryFilename, dirPrefix, findLastSlash_of_not_mem fn.data hf, String.empty_append]
  · rw [shapeEq, beq_iff_eq]
    exact List.ext_get_iff

/-- Witness for C8 at the path dir/net.nnef and variable w. -/
theorem C8_witness :
    '/' ∉ "net.nnef".data ∧
    binaryFilename ("dir" ++ "/" ++ "net.nnef") "w" = "dir" ++ "/" ++ "w" ++ ".dat" :=
  ⟨by decide, C8_binary_path_and_shape_equality.1 "dir" "net.nnef" "w" (by decide)⟩

/-- C10: the option loop assumes every "--atomics" argument is followed
by a value; when "--atomics" is the final argument, main reads
argv[argc] — the null terminator — and hands it to parseAtomics, whose
strlen dereferences it, so the error branch of the total embedding is
reached; conversely, when some token follows every "--atomics", the
option scan completes without reaching that branch. -/
theorem C10_atomics_requires_following_token :
    parseOptions ["prog", "net.nnef", "--atomics"]
      = Except.error "null pointer dereference: strlen(argv[argc]) in parseAtomics" ∧
    (∀ argv : List String,
      (∀ j : Fin argv.length, argv.get j = "--atomics" → j.1 + 1 < argv.length) →
      ∃ o, parseOptions argv = Except.ok o) :=
  ⟨by simp [parseOptions, optionLoop], fun argv hgood => optionLoop_ok argv hgood 2 initOptions⟩

/-- Witness for C10 at an argument vector whose every "--atomics" is
followed by a token. -/
theorem C10_witness :
    ∃ o, parseOptions ["prog", "net.nnef", "--atomics", "+a -conv", "--binary"]
      = Except.ok o :=
  C10_atomics_requires_following_token.2
    ["prog", "net.nnef", "--atomics", "+a -conv", "--binary"] (by decide)

end NNEF
